import Mathlib

/-!
Verification of the admission-controlled execution core of the PDF service
repository: the `ConcurrencyManager` gate (bounded concurrency, FIFO queue,
per-operation timeouts, graceful shutdown, batch execution), the `FileManager`
temporary-file lifecycle (secure filenames, ownership-checked cleanup), and the
streaming upload boundary.

The JavaScript classes are shallowly embedded: the mutable instance state
becomes an explicit state record, each method becomes a state-transforming
function, and the externally observable promise resolutions (grants, timeout
rejections, shutdown rejections) are recorded in log fields of the state.
The single-threaded JavaScript event loop makes every synchronous block of a
method atomic, so an execution of the manager is a sequence of atomic events
(an `acquire` call, a `release` call, a timer callback firing), modelled by a
`step` function folded over an event list.
-/

set_option maxHeartbeats 1600000

namespace ConcurrencyManager

/-- A queued operation object, as built inside `acquire`: the resolution
callbacks and the timer handle are not data and are modelled by the event
semantics below.  The source draws the identifier string from the operation
name, the clock and a random suffix; identifiers are modelled as naturals
drawn from a per-manager counter, and all behaviour below relies only on
their distinctness. -/
structure Operation where
  id : Nat
  name : String
deriving DecidableEq, Repr

/-- The instance state of a `ConcurrencyManager`, plus log fields recording
the externally observable promise resolutions: `enqLog` lists operation ids in
the order their requests were enqueued, `grantLog` in the order their promises
were resolved with a resource, `timeoutLog` the ids rejected with the TIMEOUT
error, and `shutdownLog` the ids force-rejected by `shutdown` with the
"Server shutting down" error.  The cumulative `queueTime` and `processingTime`
statistics are wall-clock sums and are not modelled. -/
structure CMState where
  maxConcurrent : Nat
  maxQueueSize : Nat
  running : List Nat
  queue : List Operation
  nextId : Nat
  statsProcessed : Nat
  statsFailed : Nat
  statsTimeout : Nat
  enqLog : List Nat
  grantLog : List Nat
  timeoutLog : List Nat
  shutdownLog : List Nat
deriving DecidableEq, Repr

/-- The ids of the currently queued operations, in queue order. -/
def queueIds (s : CMState) : List Nat := s.queue.map (fun op => op.id)

/-- `Set.add` on the JS running set: inserting a member is a no-op. -/
def setAdd (x : Nat) (l : List Nat) : List Nat := if x ∈ l then l else x :: l

/-- The while loop of `processQueue`: while a slot is free and the queue is
nonempty, shift the queue head, clear its timer, add its id to the running
set and resolve its promise with a resource (recorded in the grant log).
Returns the new running set, the new grant log and the remaining queue. -/
def processQueueAux (maxC : Nat) (running grantLog : List Nat) :
    List Operation → List Nat × List Nat × List Operation
  | [] => (running, grantLog, [])
  | op :: rest =>
    if running.length < maxC then
      processQueueAux maxC (setAdd op.id running) (grantLog ++ [op.id]) rest
    else (running, grantLog, op :: rest)

/-- `processQueue`: admit queued operations while resources are available. -/
def processQueue (s : CMState) : CMState :=
  let t := processQueueAux s.maxConcurrent s.running s.grantLog s.queue
  { s with running := t.1, grantLog := t.2.1, queue := t.2.2 }

/-- Outcome of a call to `acquire`, as seen by the caller at call time: the
promise is rejected synchronously with the QUEUE_FULL error, or an operation
with the given id is enqueued (its promise resolves later, when granted). -/
inductive AcquireResult where
  | queueFull
  | enqueued (id : Nat)
deriving DecidableEq, Repr

/-- `acquire`: reject with QUEUE_FULL if the queue is at the size limit,
otherwise create the operation (with a pending timeout timer), push it onto
the queue and run `processQueue`. -/
def acquire (s : CMState) (name : String) : CMState × AcquireResult :=
  if s.maxQueueSize ≤ s.queue.length then
    (s, AcquireResult.queueFull)
  else
    let op : Operation := { id := s.nextId, name := name }
    let s1 : CMState :=
      { s with queue := s.queue ++ [op], nextId := s.nextId + 1,
               enqLog := s.enqLog ++ [op.id] }
    (processQueue s1, AcquireResult.enqueued op.id)

/-- `release`: deleting an id absent from the running set is a no-op;
otherwise remove it and immediately run `processQueue`. -/
def release (s : CMState) (rid : Nat) : CMState :=
  if rid ∈ s.running then
    processQueue { s with running := s.running.erase rid }
  else s

/-- `removeFromQueue`: splice out the first queue entry with the given id
(and clear its timer), a no-op when no entry matches. -/
def removeFromQueue (s : CMState) (oid : Nat) : CMState :=
  { s with queue := s.queue.eraseP (fun op => op.id == oid) }

/-- The timer callback installed by `acquire` firing for operation `oid`.
The callback can only fire while the timer is pending, i.e. while the
operation is still queued (dequeuing and removal both clear the timer); it
increments the timeout counter, rejects the promise with the TIMEOUT error
and removes the operation from the queue, all in one synchronous block. -/
def timeoutFire (s : CMState) (oid : Nat) : CMState :=
  if oid ∈ queueIds s then
    removeFromQueue
      { s with statsTimeout := s.statsTimeout + 1,
               timeoutLog := s.timeoutLog ++ [oid] } oid
  else s

/-- An atomic event on the manager: an `acquire` call, a `release` call, or
a pending per-operation timeout timer firing. -/
inductive Event where
  | acquire (name : String)
  | release (id : Nat)
  | timeoutFire (id : Nat)
deriving DecidableEq, Repr

/-- Apply one event to the state. -/
def step (s : CMState) : Event → CMState
  | Event.acquire n => (acquire s n).1
  | Event.release i => release s i
  | Event.timeoutFire i => timeoutFire s i

/-- Run a sequence of events. -/
def run (s : CMState) (es : List Event) : CMState := es.foldl step s

/-- The constructor state: given maximum concurrency and queue bound, no
operation is running or queued and all counters are zero. -/
def initState (maxC maxQ : Nat) : CMState :=
  { maxConcurrent := maxC, maxQueueSize := maxQ, running := [], queue := [],
    nextId := 0, statsProcessed := 0, statsFailed := 0, statsTimeout := 0,
    enqLog := [], grantLog := [], timeoutLog := [], shutdownLog := [] }

/-- The body of `execute` after `await this.acquire(operationName)` has
resolved with the resource whose id is `rid`, with the awaited outcome of the
processing closure given as `work`.  Following the source control flow: on
success the processed counter is bumped and the result returned; on failure
the failed counter is bumped and the same error re-thrown; the finally block
then calls `resource.release()` exactly once (the returned list records the
release calls made).  The wall-clock `processingTime` sum is not modelled. -/
def executeAfterAcquire {ε α : Type} (s : CMState) (rid : Nat)
    (work : Except ε α) : CMState × Except ε α × List Nat :=
  match work with
  | Except.ok v =>
    (release { s with statsProcessed := s.statsProcessed + 1 } rid,
     Except.ok v, [rid])
  | Except.error e =>
    (release { s with statsFailed := s.statsFailed + 1 } rid,
     Except.error e, [rid])

/-- `shutdown(timeoutMs)`: sets `maxConcurrent` to zero, then awaits a race
between the running set draining and the shutdown timer.  `rels` is the
sequence of `release` calls the in-flight token holders make before the race
settles.  If the running set drains, the race resolves and every operation
still queued is rejected with the "Server shutting down" error (recorded in
`shutdownLog`) and the queue is cleared; otherwise the shutdown timer fires
first, the race rejects with the "Shutdown timeout" error, and the awaiting
`shutdown` re-throws it, so the queue-clearing code below the await never
runs. -/
def shutdown (s : CMState) (rels : List Nat) : CMState × Except String Unit :=
  let s1 : CMState := { s with maxConcurrent := 0 }
  let s2 : CMState := rels.foldl release s1
  if s2.running.length = 0 then
    ({ s2 with queue := [], shutdownLog := s2.shutdownLog ++ queueIds s2 },
     Except.ok ())
  else
    (s2, Except.error "Shutdown timeout")

/-- A JavaScript number as produced by the statistics arithmetic: NaN, a
signed infinity, or a finite value (modelled exactly as a rational; the
counts divided here are small integers, far from any rounding). -/
inductive JSNum where
  | nan
  | posInf
  | negInf
  | num (q : ℚ)
deriving DecidableEq

/-- JavaScript division on numbers: `0/0` is NaN, `x/0` is a signed
infinity for finite nonzero `x`, infinities over infinities are NaN. -/
def jsDiv : JSNum → JSNum → JSNum
  | JSNum.num a, JSNum.num b =>
    if b = 0 then
      (if a = 0 then JSNum.nan else if 0 < a then JSNum.posInf else JSNum.negInf)
    else JSNum.num (a / b)
  | JSNum.num a, JSNum.posInf => if a = 0 then JSNum.num 0 else JSNum.num 0
  | JSNum.num _, JSNum.negInf => JSNum.num 0
  | JSNum.posInf, JSNum.num b =>
    if 0 ≤ b then JSNum.posInf else JSNum.negInf
  | JSNum.negInf, JSNum.num b =>
    if 0 ≤ b then JSNum.negInf else JSNum.posInf
  | _, _ => JSNum.nan

/-- JavaScript multiplication on numbers: NaN is absorbing, an infinity
times zero is NaN, otherwise infinities keep the product sign. -/
def jsMul : JSNum → JSNum → JSNum
  | JSNum.num a, JSNum.num b => JSNum.num (a * b)
  | JSNum.nan, _ => JSNum.nan
  | _, JSNum.nan => JSNum.nan
  | JSNum.posInf, JSNum.num b =>
    if b = 0 then JSNum.nan else if 0 < b then JSNum.posInf else JSNum.negInf
  | JSNum.negInf, JSNum.num b =>
    if b = 0 then JSNum.nan else if 0 < b then JSNum.negInf else JSNum.posInf
  | JSNum.num a, JSNum.posInf =>
    if a = 0 then JSNum.nan else if 0 < a then JSNum.posInf else JSNum.negInf
  | JSNum.num a, JSNum.negInf =>
    if a = 0 then JSNum.nan else if 0 < a then JSNum.negInf else JSNum.posInf
  | JSNum.posInf, JSNum.posInf => JSNum.posInf
  | JSNum.posInf, JSNum.negInf => JSNum.negInf
  | JSNum.negInf, JSNum.posInf => JSNum.negInf
  | JSNum.negInf, JSNum.negInf => JSNum.posInf

/-- The `items.slice(i, i + batchSize)` chunking loop of `executeBatch`.
When `batchSize = 0` and `items` is nonempty the JavaScript loop index never
advances and the loop diverges; that case is modelled as an empty partition
and is never reached by the claims below. -/
def chunksOf {α : Type} (batchSize : Nat) (items : List α) : List (List α) :=
  match batchSize, items with
  | _, [] => []
  | 0, _ :: _ => []
  | b + 1, x :: xs =>
    ((x :: xs).take (b + 1)) :: chunksOf (b + 1) ((x :: xs).drop (b + 1))
termination_by items.length
decreasing_by
  simp only [List.length_drop, List.length_cons]
  omega

/-- `processBatch`: map each item of a chunk to the settled outcome of its
`this.execute` call.  The outcome of the awaited call for a given item is
abstracted by `f item globalIndex` (the gate scheduling inside `execute` does
not affect which outcomes are aggregated); `Except.ok` is the
`{success: true, result}` record and `Except.error` the caught one. -/
def processBatchChunk {α β : Type} (f : α → Nat → Except String β)
    (batchSize batchIndex : Nat) (chunk : List α) :
    List (Except String β × α) :=
  chunk.enum.map (fun p => (f p.2 (p.1 + batchIndex * batchSize), p.2))

/-- The aggregate statistics object returned by `executeBatch`. -/
structure BatchStats where
  total : Nat
  successful : Nat
  failed : Nat
  successRate : JSNum
deriving DecidableEq

/-- The return value of `executeBatch`. -/
structure BatchReturn (α β : Type) where
  results : List β
  errors : List (α × String)
deriving DecidableEq

/-- The forEach loops over batch outcomes: successes are pushed onto
`results`, failures onto `errors` together with their item. -/
def collectOutcomes {α β : Type} (outs : List (Except String β × α))
    (results : List β) (errors : List (α × String)) :
    List β × List (α × String) :=
  match outs with
  | [] => (results, errors)
  | (Except.ok r, _) :: rest => collectOutcomes rest (results ++ [r]) errors
  | (Except.error e, it) :: rest =>
    collectOutcomes rest results (errors ++ [(it, e)])

/-- `executeBatch`: partition `items` into chunks of at most `batchSize`,
process them (sequentially when `progressive`, otherwise all dispatched and
awaited together, which aggregates the flattened outcomes in the same
order), and return the collected results and errors together with the
statistics object, whose `successRate` is the unguarded
`(results.length / items.length) * 100`.  The `onProgress` callback has no
effect on the returned value and is not modelled. -/
def executeBatch {α β : Type} (f : α → Nat → Except String β)
    (items : List α) (batchSize : Nat) (progressive : Bool) :
    BatchReturn α β × BatchStats :=
  let batches := chunksOf batchSize items
  let collected :=
    if progressive then
      batches.enum.foldl
        (fun acc p =>
          collectOutcomes (processBatchChunk f batchSize p.1 p.2) acc.1 acc.2)
        ([], [])
    else
      collectOutcomes
        ((batches.enum.map
          (fun p => processBatchChunk f batchSize p.1 p.2)).flatten) [] []
  ({ results := collected.1, errors := collected.2 },
   { total := items.length, successful := collected.1.length,
     failed := collected.2.length,
     successRate :=
       jsMul (jsDiv (JSNum.num (collected.1.length : ℚ))
                    (JSNum.num (items.length : ℚ)))
             (JSNum.num 100) })

end ConcurrencyManager

namespace FileManager

/-- A tracked temp-file record, the value stored in the `activeFiles` map. -/
structure FileInfo where
  path : String
  created : Nat
  pid : Nat
  originalName : String
  active : Bool
deriving DecidableEq, Repr

/-- The state of a `FileManager` instance together with the filesystem it
acts on: `activeFiles` is the tracking map (keyed by filename, in insertion
order, as a JS Map), and `disk` the staged files currently on disk, each a
path with its written bytes. -/
structure FMState where
  activeFiles : List (String × FileInfo)
  disk : List (String × List Nat)
deriving DecidableEq, Repr

/-- `Map.get` on the tracking map. -/
def mapGet (m : List (String × FileInfo)) (k : String) : Option FileInfo :=
  match m.find? (fun p => p.1 == k) with
  | none => none
  | some p => some p.2

/-- `Map.set` on the tracking map: replace in place or append. -/
def mapSet (m : List (String × FileInfo)) (k : String) (v : FileInfo) :
    List (String × FileInfo) :=
  if m.any (fun p => p.1 == k) then
    m.map (fun p => if p.1 == k then (k, v) else p)
  else m ++ [(k, v)]

/-- `Map.delete` on the tracking map. -/
def mapDelete (m : List (String × FileInfo)) (k : String) :
    List (String × FileInfo) :=
  m.filter (fun p => p.1 != k)

/-- Write bytes to a path on the modelled filesystem, overwriting. -/
def diskWrite (disk : List (String × List Nat)) (p : String)
    (bytes : List Nat) : List (String × List Nat) :=
  if disk.any (fun e => e.1 == p) then
    disk.map (fun e => if e.1 == p then (p, bytes) else e)
  else disk ++ [(p, bytes)]

/-- The component of a path after the last slash (used both to model
`path.basename`/`path.extname`, which operate on it, and the
`split('/').pop()` of the streaming middleware). -/
def afterLastSlash (l : List Char) : List Char :=
  l.foldl (fun acc c => if c = '/' then [] else acc ++ [c]) []

/-- `path.extname` on the final path component: the suffix from the last
dot, empty when there is no dot or the only dot is leading. -/
def extnameData (comp : List Char) : List Char :=
  let afterDot := comp.reverse.takeWhile (fun c => c ≠ '.')
  if afterDot.length + 2 ≤ comp.length then '.' :: afterDot.reverse else []

/-- `path.extname`. -/
def extname (s : String) : String :=
  String.mk (extnameData (afterLastSlash s.data))

/-- `path.basename(p, path.extname(p))`: the final component with its
extension stripped. -/
def basenameDropExt (s : String) : String :=
  let comp := afterLastSlash s.data
  String.mk (comp.take (comp.length - (extnameData comp).length))

/-- `generateSecureFilename`: `{pid}-{timestamp}-{sessionId}-{uuid}-{base}{ext}`.
The effectful inputs are parameters: `pid` is `process.pid`, `timestamp` is
`Date.now()`, `sessionId` is `crypto.randomBytes(8).toString('hex')` (16 hex
characters) and `uuid` is `crypto.randomUUID()` (36 characters); the
fixed lengths of the two random components are hypotheses of the theorems
below.  The extension falls back from the explicit argument to
`path.extname(originalName)` to `.tmp`, matching the JS `||` chain on
falsy empty strings. -/
def generateSecureFilename (pid timestamp : Nat) (sessionId uuid : String)
    (originalName : String) (extension : String) : String :=
  let ext := if extension ≠ "" then extension
    else (if extname originalName ≠ "" then extname originalName else ".tmp")
  let baseName := basenameDropExt originalName
  toString pid ++ "-" ++ toString timestamp ++ "-" ++ sessionId ++ "-" ++
    uuid ++ "-" ++ baseName ++ ext

/-- `createTempFile`: compute the secure filename, join it to the temp
directory, register a tracking record owned by the current process, write
the data (if any) with owner-only permissions, and return the filename and
path (the returned `cleanup` closure is `cleanupFile` bound to the
filename).  Directory creation only touches the directory tree and is not
part of the file-level model. -/
def createTempFile (fm : FMState) (pid timestamp : Nat)
    (sessionId uuid : String) (tempDir : String) (originalName : String)
    (data : Option (List Nat)) : FMState × String × String :=
  let filename := generateSecureFilename pid timestamp sessionId uuid originalName ""
  let filepath := tempDir ++ "/" ++ filename
  let info : FileInfo := { path := filepath, created := timestamp, pid := pid,
                           originalName := originalName, active := true }
  let fm1 : FMState := { fm with activeFiles := mapSet fm.activeFiles filename info }
  let fm2 : FMState :=
    match data with
    | some d => { fm1 with disk := diskWrite fm1.disk filepath d }
    | none => fm1
  (fm2, filename, filepath)

/-- `cleanupFile`: unknown identifiers return false; a record owned by a
different process is refused (warned, nothing deleted) and returns false;
otherwise the file is unlinked if present (a missing file is tolerated), the
record is removed from tracking and true is returned.  The whole body is
wrapped in try/catch in the source, so the call never throws; the model is
a total function. -/
def cleanupFile (currentPid : Nat) (fm : FMState) (filename : String) :
    FMState × Bool :=
  match mapGet fm.activeFiles filename with
  | none => (fm, false)
  | some info =>
    if info.pid ≠ currentPid then (fm, false)
    else
      ({ activeFiles := mapDelete fm.activeFiles filename,
         disk := fm.disk.filter (fun e => e.1 != info.path) }, true)

/-- A fixture record owned by process 999, tracked under key "k". -/
def foreignRecord : FileInfo :=
  { path := "/tmp/uploads/k", created := 5, pid := 999,
    originalName := "a.pdf", active := true }

/-- A fixture manager state holding only `foreignRecord`, whose file is on
disk. -/
def foreignFM : FMState :=
  { activeFiles := [("k", foreignRecord)], disk := [("/tmp/uploads/k", [7])] }

/-- A fixture manager state with nothing tracked and an empty disk. -/
def blankFM : FMState := { activeFiles := [], disk := [] }

end FileManager

namespace StreamingMiddleware

/-- The upload-relevant configuration (`config.upload` and
`config.pdf.streamingThreshold`). -/
structure UploadConfig where
  allowedMimeTypes : List String
  tempDir : String
  maxFileSize : Nat
  maxFiles : Nat
  streamingThreshold : Nat
deriving DecidableEq, Repr

/-- The file record pushed onto `req.files` by the streaming upload. -/
structure UploadedFile where
  fieldname : String
  originalname : String
  encoding : String
  mimetype : String
  path : String
  filename : String
deriving DecidableEq, Repr

/-- `tempPath.split('/').pop()`. -/
def lastPathComponent (s : String) : String :=
  String.mk (FileManager.afterLastSlash s.data)

/-- The busboy `file` event handler of `streamingUpload`, for one incoming
part: a part whose MIME type is not on the allow-list is drained and
dropped; an accepted part is piped to a write stream at a path the handler
itself composes inside the temp directory from `Date.now()` (`nowMs`), a
random base-36 suffix (`rnd`) and the client-supplied filename, and a file
record using that staged path is pushed onto the request file list.  `content`
is the byte stream of the part.  The File Lifecycle Manager state `fm` is
threaded through to express what the handler does (and does not do) to it. -/
def streamingUploadOnFile (cfg : UploadConfig) (fm : FileManager.FMState)
    (files : List UploadedFile) (nowMs : Nat) (rnd : String)
    (fieldname filename encoding mimeType : String) (content : List Nat) :
    FileManager.FMState × List UploadedFile :=
  if cfg.allowedMimeTypes.contains mimeType then
    let tempPath := cfg.tempDir ++ "/" ++
      (toString nowMs ++ "-" ++ rnd ++ "-" ++ filename)
    let fm1 : FileManager.FMState :=
      { fm with disk := FileManager.diskWrite fm.disk tempPath content }
    (fm1, files ++ [{ fieldname := fieldname, originalname := filename,
                      encoding := encoding, mimetype := mimeType,
                      path := tempPath,
                      filename := lastPathComponent tempPath }])
  else (fm, files)

/-- The predicate the specification asserts of a staged path: it was issued
by the File Lifecycle Manager, i.e. some record of the manager tracking map
resolves to it. -/
def managerIssued (fm : FileManager.FMState) (p : String) : Prop :=
  ∃ entry ∈ fm.activeFiles, entry.2.path = p

instance (fm : FileManager.FMState) (p : String) :
    Decidable (managerIssued fm p) := by
  unfold managerIssued
  exact List.decidableBEx _ _

/-- A concrete upload configuration used as a fixture: PDF uploads only,
staged under `/tmp/uploads`, with a streaming threshold of 10 bytes. -/
def sampleConfig : UploadConfig :=
  { allowedMimeTypes := ["application/pdf"], tempDir := "/tmp/uploads",
    maxFileSize := 1000000, maxFiles := 10, streamingThreshold := 10 }

/-- A fresh File Lifecycle Manager state: nothing tracked, nothing staged. -/
def emptyFM : FileManager.FMState := { activeFiles := [], disk := [] }

end StreamingMiddleware

namespace ConcurrencyManager

theorem setAdd_length (x : Nat) (l : List Nat) :
    (setAdd x l).length ≤ l.length + 1 := by
  unfold setAdd; split <;> simp

theorem setAdd_nodup (x : Nat) (l : List Nat) (h : l.Nodup) :
    (setAdd x l).Nodup := by
  unfold setAdd; split
  · exact h
  · exact List.nodup_cons.mpr ⟨by assumption, h⟩

theorem mem_setAdd {x y : Nat} {l : List Nat} :
    y ∈ setAdd x l ↔ y = x ∨ y ∈ l := by
  unfold setAdd; split
  · constructor
    · exact fun h => Or.inr h
    · rintro (rfl | h) <;> [assumption; assumption]
  · simp [List.mem_cons]

/-- Structural specification of the `processQueue` while loop: some prefix
`pre` of the queue is dequeued, its ids are appended to the grant log in
queue order, and every id in the resulting running set was either already
running or belongs to the dequeued prefix. -/
theorem processQueueAux_spec (maxC : Nat) (running grantLog : List Nat)
    (queue : List Operation) :
    ∃ pre : List Operation,
      queue = pre ++ (processQueueAux maxC running grantLog queue).2.2 ∧
      (processQueueAux maxC running grantLog queue).2.1 =
        grantLog ++ pre.map (fun op => op.id) ∧
      ∀ x ∈ (processQueueAux maxC running grantLog queue).1,
        x ∈ running ∨ x ∈ pre.map (fun op => op.id) := by
  induction queue generalizing running grantLog with
  | nil =>
    refine ⟨[], ?_, ?_, ?_⟩ <;> simp [processQueueAux]
  | cons op rest ih =>
    by_cases h : running.length < maxC
    · obtain ⟨pre, h1, h2, h3⟩ := ih (setAdd op.id running) (grantLog ++ [op.id])
      refine ⟨op :: pre, ?_, ?_, ?_⟩
      · simp only [processQueueAux, if_pos h]
        exact congrArg (op :: ·) h1
      · simp only [processQueueAux, if_pos h]
        rw [h2]; simp
      · intro x hx
        simp only [processQueueAux, if_pos h] at hx
        rcases h3 x hx with hr | hp
        · rcases mem_setAdd.mp hr with rfl | hr
          · exact Or.inr (by simp)
          · exact Or.inl hr
        · exact Or.inr (by simp [hp])
    · refine ⟨[], ?_, ?_, ?_⟩ <;> simp [processQueueAux, if_neg h]

theorem processQueueAux_length_le (maxC : Nat) (queue : List Operation)
    (running grantLog : List Nat) (h : running.length ≤ maxC) :
    (processQueueAux maxC running grantLog queue).1.length ≤ maxC := by
  induction queue generalizing running grantLog with
  | nil => simpa [processQueueAux] using h
  | cons op rest ih =>
    by_cases hlt : running.length < maxC
    · simp only [processQueueAux, if_pos hlt]
      exact ih _ _ (le_trans (setAdd_length _ _) hlt)
    · simpa [processQueueAux, if_neg hlt] using h

theorem processQueueAux_nodup (maxC : Nat) (queue : List Operation)
    (running grantLog : List Nat) (h : running.Nodup) :
    (processQueueAux maxC running grantLog queue).1.Nodup := by
  induction queue generalizing running grantLog with
  | nil => simpa [processQueueAux] using h
  | cons op rest ih =>
    by_cases hlt : running.length < maxC
    · simp only [processQueueAux, if_pos hlt]
      exact ih _ _ (setAdd_nodup _ _ h)
    · simpa [processQueueAux, if_neg hlt] using h

theorem processQueue_maxConcurrent (s : CMState) :
    (processQueue s).maxConcurrent = s.maxConcurrent := rfl

theorem processQueue_maxQueueSize (s : CMState) :
    (processQueue s).maxQueueSize = s.maxQueueSize := rfl

theorem processQueue_nextId (s : CMState) :
    (processQueue s).nextId = s.nextId := rfl

theorem processQueue_enqLog (s : CMState) :
    (processQueue s).enqLog = s.enqLog := rfl

/-- The well-formedness invariant of a manager state.  Besides the two
bounds claimed by the specification, it carries the bookkeeping facts that
make the bounds and the FIFO discipline inductive: ids are allocated below
`nextId`, queue, grant log and enqueue log are strictly increasing in id,
every grant is smaller than every id still queued, and every running id has
been granted. -/
structure Inv (s : CMState) : Prop where
  runLe : s.running.length ≤ s.maxConcurrent
  runNodup : s.running.Nodup
  runGrant : ∀ r ∈ s.running, r ∈ s.grantLog
  queueLe : s.queue.length ≤ s.maxQueueSize
  queueLt : ∀ op ∈ s.queue, op.id < s.nextId
  grantLt : ∀ g ∈ s.grantLog, g < s.nextId
  queueSorted : List.Pairwise (fun a b => a < b) (queueIds s)
  grantSorted : List.Pairwise (fun a b => a < b) s.grantLog
  grantQueue : ∀ g ∈ s.grantLog, ∀ op ∈ s.queue, g < op.id
  enqSorted : List.Pairwise (fun a b => a < b) s.enqLog
  enqLt : ∀ e ∈ s.enqLog, e < s.nextId

theorem initState_inv (maxC maxQ : Nat) : Inv (initState maxC maxQ) := by
  constructor <;> simp [initState, queueIds]

theorem processQueue_inv (s : CMState) (h : Inv s) : Inv (processQueue s) := by
  obtain ⟨pre, hq, hg, hmem⟩ :=
    processQueueAux_spec s.maxConcurrent s.running s.grantLog s.queue
  have hids : queueIds s =
      pre.map (fun op => op.id) ++ (processQueue s).queue.map (fun op => op.id) := by
    simp only [queueIds, processQueue]
    rw [← List.map_append, ← hq]
  have hqs := h.queueSorted
  rw [hids, List.pairwise_append] at hqs
  obtain ⟨hpre_sorted, hpost_sorted, hcross⟩ := hqs
  have hqueue : (processQueue s).queue = (processQueueAux s.maxConcurrent s.running s.grantLog s.queue).2.2 := rfl
  have hgrant : (processQueue s).grantLog = s.grantLog ++ pre.map (fun op => op.id) := by
    simp only [processQueue]; exact hg
  have hrun : (processQueue s).running = (processQueueAux s.maxConcurrent s.running s.grantLog s.queue).1 := rfl
  have hpost_sub : ∀ op ∈ (processQueue s).queue, op ∈ s.queue := by
    intro op hop
    rw [hq]
    exact List.mem_append_right _ (hqueue ▸ hop)
  have hpre_sub : ∀ op ∈ pre, op ∈ s.queue := by
    intro op hop
    rw [hq]; exact List.mem_append_left _ hop
  constructor
  · rw [hrun, processQueue_maxConcurrent]
    exact processQueueAux_length_le _ _ _ _ h.runLe
  · rw [hrun]; exact processQueueAux_nodup _ _ _ _ h.runNodup
  · intro r hr
    rw [hrun] at hr
    rw [hgrant]
    rcases hmem r hr with hin | hin
    · exact List.mem_append_left _ (h.runGrant r hin)
    · exact List.mem_append_right _ hin
  · rw [hqueue, processQueue_maxQueueSize]
    have hlen : pre.length +
        (processQueueAux s.maxConcurrent s.running s.grantLog s.queue).2.2.length =
        s.queue.length := by
      conv_rhs => rw [hq]
      simp
    have := h.queueLe
    omega
  · intro op hop
    rw [processQueue_nextId]
    exact h.queueLt op (hpost_sub op hop)
  · intro g hgm
    rw [hgrant] at hgm
    rw [processQueue_nextId]
    rcases List.mem_append.mp hgm with hin | hin
    · exact h.grantLt g hin
    · obtain ⟨op, hop, rfl⟩ := List.mem_map.mp hin
      exact h.queueLt op (hpre_sub op hop)
  · exact hpost_sorted
  · rw [hgrant]
    rw [List.pairwise_append]
    refine ⟨h.grantSorted, hpre_sorted, ?_⟩
    intro g hgm y hy
    obtain ⟨op, hop, rfl⟩ := List.mem_map.mp hy
    exact h.grantQueue g hgm op (hpre_sub op hop)
  · intro g hgm op hop
    rw [hgrant] at hgm
    rcases List.mem_append.mp hgm with hin | hin
    · exact h.grantQueue g hin op (hpost_sub op hop)
    · exact hcross g hin op.id (List.mem_map.mpr ⟨op, hop, rfl⟩)
  · rw [processQueue_enqLog]; exact h.enqSorted
  · intro e he
    rw [processQueue_enqLog] at he
    rw [processQueue_nextId]
    exact h.enqLt e he

theorem acquire_inv (s : CMState) (name : String) (h : Inv s) :
    Inv (acquire s name).1 := by
  unfold acquire
  split
  · exact h
  · rename_i hfull
    apply processQueue_inv
    have hlen : s.queue.length < s.maxQueueSize := Nat.lt_of_not_le hfull
    constructor
    · exact h.runLe
    · exact h.runNodup
    · exact h.runGrant
    · simpa using hlen
    · intro op hop
      simp only [List.mem_append, List.mem_singleton] at hop
      rcases hop with hin | rfl
      · exact Nat.lt_succ_of_lt (h.queueLt op hin)
      · exact Nat.lt_succ_self _
    · intro g hgm
      exact Nat.lt_succ_of_lt (h.grantLt g hgm)
    · simp only [queueIds, List.map_append]
      rw [List.pairwise_append]
      refine ⟨h.queueSorted, by simp, ?_⟩
      intro a ha b hb
      simp only [List.map_cons, List.map_nil, List.mem_singleton] at hb
      subst hb
      obtain ⟨op, hop, rfl⟩ := List.mem_map.mp ha
      exact h.queueLt op hop
    · exact h.grantSorted
    · intro g hgm op hop
      simp only [List.mem_append, List.mem_singleton] at hop
      rcases hop with hin | rfl
      · exact h.grantQueue g hgm op hin
      · exact h.grantLt g hgm
    · rw [List.pairwise_append]
      refine ⟨h.enqSorted, by simp, ?_⟩
      intro a ha b hb
      simp only [List.mem_singleton] at hb
      subst hb
      exact h.enqLt a ha
    · intro e he
      simp only [List.mem_append, List.mem_singleton] at he
      rcases he with hin | rfl
      · exact Nat.lt_succ_of_lt (h.enqLt e hin)
      · exact Nat.lt_succ_self _

theorem release_inv (s : CMState) (rid : Nat) (h : Inv s) :
    Inv (release s rid) := by
  unfold release
  split
  · apply processQueue_inv
    constructor
    · exact le_trans ((List.erase_sublist _ _).length_le) h.runLe
    · exact h.runNodup.erase rid
    · intro r hr
      exact h.runGrant r (List.mem_of_mem_erase hr)
    · exact h.queueLe
    · exact h.queueLt
    · exact h.grantLt
    · exact h.queueSorted
    · exact h.grantSorted
    · exact h.grantQueue
    · exact h.enqSorted
    · exact h.enqLt
  · exact h

theorem timeoutFire_inv (s : CMState) (oid : Nat) (h : Inv s) :
    Inv (timeoutFire s oid) := by
  unfold timeoutFire removeFromQueue
  split
  · have hsub : (s.queue.eraseP (fun op => op.id == oid)).Sublist s.queue :=
      List.eraseP_sublist _
    constructor
    · exact h.runLe
    · exact h.runNodup
    · exact h.runGrant
    · exact le_trans (hsub.length_le) h.queueLe
    · intro op hop
      exact h.queueLt op (hsub.subset hop)
    · exact h.grantLt
    · exact List.Pairwise.sublist (hsub.map _) h.queueSorted
    · exact h.grantSorted
    · intro g hgm op hop
      exact h.grantQueue g hgm op (hsub.subset hop)
    · exact h.enqSorted
    · exact h.enqLt
  · exact h

theorem step_inv (s : CMState) (e : Event) (h : Inv s) : Inv (step s e) := by
  cases e with
  | acquire n => exact acquire_inv s n h
  | release i => exact release_inv s i h
  | timeoutFire i => exact timeoutFire_inv s i h

theorem run_inv (es : List Event) (s : CMState) (h : Inv s) : Inv (run s es) := by
  induction es generalizing s with
  | nil => exact h
  | cons e rest ih => exact ih (step s e) (step_inv s e h)

theorem run_init_inv (maxC maxQ : Nat) (es : List Event) :
    Inv (run (initState maxC maxQ) es) :=
  run_inv es _ (initState_inv maxC maxQ)

theorem acquire_maxConcurrent (s : CMState) (n : String) :
    (acquire s n).1.maxConcurrent = s.maxConcurrent := by
  unfold acquire; split <;> rfl

theorem acquire_maxQueueSize (s : CMState) (n : String) :
    (acquire s n).1.maxQueueSize = s.maxQueueSize := by
  unfold acquire; split <;> rfl

theorem release_maxConcurrent (s : CMState) (i : Nat) :
    (release s i).maxConcurrent = s.maxConcurrent := by
  unfold release; split <;> rfl

theorem release_maxQueueSize (s : CMState) (i : Nat) :
    (release s i).maxQueueSize = s.maxQueueSize := by
  unfold release; split <;> rfl

theorem timeoutFire_maxConcurrent (s : CMState) (i : Nat) :
    (timeoutFire s i).maxConcurrent = s.maxConcurrent := by
  unfold timeoutFire; split <;> rfl

theorem timeoutFire_maxQueueSize (s : CMState) (i : Nat) :
    (timeoutFire s i).maxQueueSize = s.maxQueueSize := by
  unfold timeoutFire; split <;> rfl

theorem step_maxConcurrent (s : CMState) (e : Event) :
    (step s e).maxConcurrent = s.maxConcurrent := by
  cases e with
  | acquire n => exact acquire_maxConcurrent s n
  | release i => exact release_maxConcurrent s i
  | timeoutFire i => exact timeoutFire_maxConcurrent s i

theorem step_maxQueueSize (s : CMState) (e : Event) :
    (step s e).maxQueueSize = s.maxQueueSize := by
  cases e with
  | acquire n => exact acquire_maxQueueSize s n
  | release i => exact release_maxQueueSize s i
  | timeoutFire i => exact timeoutFire_maxQueueSize s i

theorem run_maxConcurrent (s : CMState) (es : List Event) :
    (run s es).maxConcurrent = s.maxConcurrent := by
  induction es generalizing s with
  | nil => rfl
  | cons e rest ih => exact (ih (step s e)).trans (step_maxConcurrent s e)

theorem run_maxQueueSize (s : CMState) (es : List Event) :
    (run s es).maxQueueSize = s.maxQueueSize := by
  induction es generalizing s with
  | nil => rfl
  | cons e rest ih => exact (ih (step s e)).trans (step_maxQueueSize s e)

theorem processQueue_grantLog_sub (s : CMState) :
    ∀ x ∈ (processQueue s).grantLog, x ∈ s.grantLog ∨ x ∈ queueIds s := by
  obtain ⟨pre, hq, hg, -⟩ :=
    processQueueAux_spec s.maxConcurrent s.running s.grantLog s.queue
  intro x hx
  have hx : x ∈ s.grantLog ++ pre.map (fun op => op.id) := by
    have : (processQueue s).grantLog =
        (processQueueAux s.maxConcurrent s.running s.grantLog s.queue).2.1 := rfl
    rw [this, hg] at hx
    exact hx
  rcases List.mem_append.mp hx with hin | hin
  · exact Or.inl hin
  · obtain ⟨op, hop, rfl⟩ := List.mem_map.mp hin
    exact Or.inr (List.mem_map.mpr ⟨op, by rw [hq]; exact List.mem_append_left _ hop, rfl⟩)

theorem processQueue_queue_sub (s : CMState) :
    ∀ op ∈ (processQueue s).queue, op ∈ s.queue := by
  obtain ⟨pre, hq, -, -⟩ :=
    processQueueAux_spec s.maxConcurrent s.running s.grantLog s.queue
  intro op hop
  rw [hq]
  exact List.mem_append_right _ hop

theorem step_grantLog_sub (s : CMState) (e : Event) :
    ∀ x ∈ (step s e).grantLog,
      x ∈ s.grantLog ∨ x ∈ queueIds s ∨ x = s.nextId := by
  intro x hx
  cases e with
  | acquire n =>
    simp only [step] at hx
    unfold acquire at hx
    split at hx
    · exact Or.inl hx
    · rcases processQueue_grantLog_sub _ x hx with hin | hin
      · exact Or.inl hin
      · simp only [queueIds, List.map_append, List.map_cons, List.map_nil,
          List.mem_append, List.mem_singleton] at hin
        rcases hin with hin | rfl
        · exact Or.inr (Or.inl hin)
        · exact Or.inr (Or.inr rfl)
  | release i =>
    simp only [step] at hx
    unfold release at hx
    split at hx
    · rcases processQueue_grantLog_sub _ x hx with hin | hin
      · exact Or.inl hin
      · exact Or.inr (Or.inl hin)
    · exact Or.inl hx
  | timeoutFire i =>
    simp only [step] at hx
    unfold timeoutFire removeFromQueue at hx
    split at hx
    · exact Or.inl hx
    · exact Or.inl hx

theorem step_queueIds_sub (s : CMState) (e : Event) :
    ∀ x ∈ queueIds (step s e), x ∈ queueIds s ∨ x = s.nextId := by
  intro x hx
  cases e with
  | acquire n =>
    simp only [step] at hx
    unfold acquire at hx
    split at hx
    · exact Or.inl hx
    · obtain ⟨op, hop, rfl⟩ := List.mem_map.mp hx
      have hop := processQueue_queue_sub _ op hop
      simp only [List.mem_append, List.mem_singleton] at hop
      rcases hop with hin | rfl
      · exact Or.inl (List.mem_map.mpr ⟨op, hin, rfl⟩)
      · exact Or.inr rfl
  | release i =>
    simp only [step] at hx
    unfold release at hx
    split at hx
    · obtain ⟨op, hop, rfl⟩ := List.mem_map.mp hx
      have hop := processQueue_queue_sub _ op hop
      exact Or.inl (List.mem_map.mpr ⟨op, hop, rfl⟩)
    · exact Or.inl hx
  | timeoutFire i =>
    simp only [step] at hx
    unfold timeoutFire removeFromQueue at hx
    split at hx
    · obtain ⟨op, hop, rfl⟩ := List.mem_map.mp hx
      exact Or.inl (List.mem_map.mpr ⟨op, (List.eraseP_sublist _).subset hop, rfl⟩)
    · exact Or.inl hx

theorem step_nextId_le (s : CMState) (e : Event) :
    s.nextId ≤ (step s e).nextId := by
  cases e with
  | acquire n =>
    simp only [step]
    unfold acquire
    split
    · exact le_refl _
    · rw [processQueue_nextId]
      exact Nat.le_succ _
  | release i =>
    simp only [step]
    unfold release
    split
    · rw [processQueue_nextId]
    · exact le_refl _
  | timeoutFire i =>
    simp only [step]
    unfold timeoutFire removeFromQueue
    split <;> exact le_refl _

/-- Once an operation id has left the queue, was allocated, and has not been
granted, no future sequence of events ever grants it. -/
theorem not_granted_forever (oid : Nat) (tr : List Event) : ∀ s : CMState,
    oid ∉ queueIds s → oid < s.nextId → oid ∉ s.grantLog →
    oid ∉ (run s tr).grantLog := by
  induction tr with
  | nil => intro s _ _ h3; exact h3
  | cons e rest ih =>
    intro s h1 h2 h3
    have hg : oid ∉ (step s e).grantLog := by
      intro hx
      rcases step_grantLog_sub s e oid hx with h | h | h
      · exact h3 h
      · exact h1 h
      · exact absurd h (Nat.ne_of_lt h2)
    have hqn : oid ∉ queueIds (step s e) := by
      intro hx
      rcases step_queueIds_sub s e oid hx with h | h
      · exact h1 h
      · exact absurd h (Nat.ne_of_lt h2)
    have hlt : oid < (step s e).nextId := lt_of_lt_of_le h2 (step_nextId_le s e)
    exact ih (step s e) hqn hlt hg

/-- Removing the entry with a given id from an id-sorted queue removes every
occurrence of that id. -/
theorem eraseP_id_not_mem (queue : List Operation) (oid : Nat)
    (hs : List.Pairwise (fun a b => a < b) (queue.map (fun op => op.id))) :
    oid ∉ (queue.eraseP (fun op => op.id == oid)).map (fun op => op.id) := by
  induction queue with
  | nil => simp
  | cons op rest ih =>
    simp only [List.map_cons, List.pairwise_cons] at hs
    obtain ⟨hhead, htail⟩ := hs
    by_cases heq : op.id = oid
    · subst heq
      rw [List.eraseP_cons, show (op.id == op.id) = true from by simp, cond_true]
      intro hx
      obtain ⟨op2, hop2, hid⟩ := List.mem_map.mp hx
      have := hhead op2.id (List.mem_map.mpr ⟨op2, hop2, rfl⟩)
      omega
    · rw [List.eraseP_cons, show (op.id == oid) = false from by simpa using heq,
        cond_false]
      intro hx
      simp only [List.map_cons, List.mem_cons] at hx
      rcases hx with h | h
      · exact heq h.symm
      · exact ih htail h

theorem processQueueAux_zero (running grantLog : List Nat)
    (queue : List Operation) :
    processQueueAux 0 running grantLog queue = (running, grantLog, queue) := by
  cases queue with
  | nil => rfl
  | cons op rest => simp [processQueueAux]

theorem processQueue_zero (s : CMState) (h : s.maxConcurrent = 0) :
    processQueue s = s := by
  cases s with
  | mk mc mq r q ni sp sf st el gl tl shl =>
    simp only at h
    subst h
    simp [processQueue, processQueueAux_zero]

theorem release_zero_fields (s : CMState) (h : s.maxConcurrent = 0)
    (rid : Nat) :
    (release s rid).queue = s.queue ∧
    (release s rid).shutdownLog = s.shutdownLog ∧
    (release s rid).maxConcurrent = 0 := by
  unfold release
  split
  · rw [processQueue_zero { s with running := s.running.erase rid } h]
    exact ⟨rfl, rfl, h⟩
  · exact ⟨rfl, rfl, h⟩

theorem foldl_release_zero_fields (rels : List Nat) (s : CMState)
    (h : s.maxConcurrent = 0) :
    (rels.foldl release s).queue = s.queue ∧
    (rels.foldl release s).shutdownLog = s.shutdownLog ∧
    (rels.foldl release s).maxConcurrent = 0 := by
  induction rels generalizing s with
  | nil => exact ⟨rfl, rfl, h⟩
  | cons r rest ih =>
    obtain ⟨h1, h2, h3⟩ := release_zero_fields s h r
    obtain ⟨g1, g2, g3⟩ := ih (release s r) h3
    exact ⟨g1.trans h1, g2.trans h2, g3⟩

theorem shutdown_fold_fields (s : CMState) (rels : List Nat) :
    (rels.foldl release { s with maxConcurrent := 0 }).queue = s.queue ∧
    (rels.foldl release { s with maxConcurrent := 0 }).shutdownLog =
      s.shutdownLog ∧
    (rels.foldl release { s with maxConcurrent := 0 }).maxConcurrent = 0 :=
  foldl_release_zero_fields rels { s with maxConcurrent := 0 } rfl

theorem acquire_zero_no_grant (s : CMState) (h : s.maxConcurrent = 0)
    (n : String) : (acquire s n).1.grantLog = s.grantLog := by
  unfold acquire
  split
  · rfl
  · show (processQueue { s with
      queue := s.queue ++ [{ id := s.nextId, name := n }],
      nextId := s.nextId + 1, enqLog := s.enqLog ++ [s.nextId] }).grantLog =
      s.grantLog
    rw [processQueue_zero { s with
      queue := s.queue ++ [{ id := s.nextId, name := n }],
      nextId := s.nextId + 1, enqLog := s.enqLog ++ [s.nextId] } h]

/-- Under the invariant, right after `release rid` the id `rid` is not in
the running set: the erase removes it (no duplicates) and the queue entries
admitted by the immediate `processQueue` all carry strictly larger ids. -/
theorem release_not_mem_running (s : CMState) (h : Inv s) (rid : Nat) :
    rid ∉ (release s rid).running := by
  unfold release
  split
  · rename_i hmem
    obtain ⟨pre, hq, hg, hsub⟩ := processQueueAux_spec s.maxConcurrent
      (s.running.erase rid) s.grantLog s.queue
    intro hx
    rcases hsub rid hx with hin | hin
    · exact h.runNodup.not_mem_erase hin
    · obtain ⟨op, hop, hid⟩ := List.mem_map.mp hin
      have hopq : op ∈ s.queue := by
        rw [hq]; exact List.mem_append_left _ hop
      have := h.grantQueue rid (h.runGrant rid hmem) op hopq
      omega
  · rename_i hmem
    exact hmem

/-- After the body of `execute` runs (either branch), the resource id is no
longer in the running set. -/
theorem executeAfterAcquire_not_running {ε α : Type} (s : CMState)
    (h : Inv s) (rid : Nat) (work : Except ε α) :
    rid ∉ (executeAfterAcquire s rid work).1.running := by
  cases work with
  | ok v =>
    exact release_not_mem_running
      { s with statsProcessed := s.statsProcessed + 1 }
      ⟨h.runLe, h.runNodup, h.runGrant, h.queueLe, h.queueLt, h.grantLt,
       h.queueSorted, h.grantSorted, h.grantQueue, h.enqSorted, h.enqLt⟩ rid
  | error e =>
    exact release_not_mem_running
      { s with statsFailed := s.statsFailed + 1 }
      ⟨h.runLe, h.runNodup, h.runGrant, h.queueLe, h.queueLt, h.grantLt,
       h.queueSorted, h.grantSorted, h.grantQueue, h.enqSorted, h.enqLt⟩ rid

/-- C1: over every sequence of acquire, release and timer events on a
manager constructed with maximum concurrency `maxC`, the running set stays
duplicate free and the number of simultaneously outstanding (granted,
unreleased) resource tokens never exceeds `maxC`. -/
theorem running_size_le_maxConcurrent (maxC maxQ : Nat) (es : List Event) :
    (run (initState maxC maxQ) es).running.length ≤ maxC ∧
    (run (initState maxC maxQ) es).running.Nodup := by
  have h := run_init_inv maxC maxQ es
  have hm : (run (initState maxC maxQ) es).maxConcurrent = maxC :=
    run_maxConcurrent (initState maxC maxQ) es
  exact ⟨le_trans h.runLe (le_of_eq hm), h.runNodup⟩

/-- C2: over every sequence of events on a manager constructed with queue
bound `maxQ`, the waiting queue never holds more than `maxQ` entries, and a
call to `acquire` made while the queue holds at least `maxQ` entries
returns immediately with the QUEUE_FULL rejection and leaves the state
unchanged (nothing is enqueued, nobody waits). -/
theorem queue_bounded_and_full_rejects (maxC maxQ : Nat) (es : List Event)
    (name : String) :
    (run (initState maxC maxQ) es).queue.length ≤ maxQ ∧
    (maxQ ≤ (run (initState maxC maxQ) es).queue.length →
      acquire (run (initState maxC maxQ) es) name =
        (run (initState maxC maxQ) es, AcquireResult.queueFull)) := by
  have h := run_init_inv maxC maxQ es
  have hm : (run (initState maxC maxQ) es).maxQueueSize = maxQ :=
    run_maxQueueSize (initState maxC maxQ) es
  refine ⟨le_trans h.queueLe (le_of_eq hm), ?_⟩
  intro hfull
  unfold acquire
  rw [if_pos (by rw [hm]; exact hfull)]

/-- Witness for C2 at a concrete state: with capacity 0 and queue bound 1, a
single acquire fills the queue and the next acquire is rejected with
QUEUE_FULL, state unchanged. -/
theorem queue_bounded_and_full_rejects_witness :
    (run (initState 0 1) [Event.acquire "a"]).queue.length ≤ 1 ∧
    acquire (run (initState 0 1) [Event.acquire "a"]) "b" =
      (run (initState 0 1) [Event.acquire "a"], AcquireResult.queueFull) :=
  ⟨(queue_bounded_and_full_rejects 0 1 [Event.acquire "a"] "b").1,
   (queue_bounded_and_full_rejects 0 1 [Event.acquire "a"] "b").2 (by decide)⟩

/-- C3: admission is strict FIFO.  If request `a` was enqueued strictly
before request `b` (positions `i < j` of the enqueue log) and both were
eventually granted (positions `k`, `l` of the grant log), then `a` was
granted no later than `b` (`k ≤ l`); moreover every grant ever made is
strictly older (smaller id) than every entry still waiting in the queue, so
no entry is granted while an earlier, still-queued entry exists. -/
theorem fifo_admission (maxC maxQ : Nat) (es : List Event) (a b i j k l : Nat)
    (hi : (run (initState maxC maxQ) es).enqLog.get? i = some a)
    (hj : (run (initState maxC maxQ) es).enqLog.get? j = some b)
    (hij : i < j)
    (hk : (run (initState maxC maxQ) es).grantLog.get? k = some a)
    (hl : (run (initState maxC maxQ) es).grantLog.get? l = some b) :
    k ≤ l ∧
    ∀ g ∈ (run (initState maxC maxQ) es).grantLog,
      ∀ op ∈ (run (initState maxC maxQ) es).queue, g < op.id := by
  have h := run_init_inv maxC maxQ es
  obtain ⟨hi_lt, hi_eq⟩ := List.get?_eq_some.mp hi
  obtain ⟨hj_lt, hj_eq⟩ := List.get?_eq_some.mp hj
  have hab : a < b := by
    have := List.pairwise_iff_get.mp h.enqSorted ⟨i, hi_lt⟩ ⟨j, hj_lt⟩ hij
    rwa [hi_eq, hj_eq] at this
  obtain ⟨hk_lt, hk_eq⟩ := List.get?_eq_some.mp hk
  obtain ⟨hl_lt, hl_eq⟩ := List.get?_eq_some.mp hl
  refine ⟨?_, h.grantQueue⟩
  by_contra hkl
  push_neg at hkl
  have := List.pairwise_iff_get.mp h.grantSorted ⟨l, hl_lt⟩ ⟨k, hk_lt⟩ hkl
  rw [hl_eq, hk_eq] at this
  omega

/-- Witness for C3 at a concrete trace: request 0 is granted at once,
request 1 queues, releasing 0 grants 1; the grant order respects the
enqueue order. -/
theorem fifo_admission_witness :
    (0 : Nat) ≤ 1 ∧
    ∀ g ∈ (run (initState 1 10)
        [Event.acquire "a", Event.acquire "b", Event.release 0]).grantLog,
      ∀ op ∈ (run (initState 1 10)
        [Event.acquire "a", Event.acquire "b", Event.release 0]).queue,
        g < op.id :=
  fifo_admission 1 10 [Event.acquire "a", Event.acquire "b", Event.release 0]
    0 1 0 1 0 1 (by decide) (by decide) (by decide) (by decide) (by decide)

/-- C4: when the pending timeout timer of a queued request `oid` fires, the
timeout counter is bumped, the request promise is rejected with the TIMEOUT
error, the request is removed from the queue, and no later sequence of
events (in particular a release freeing a slot at the same instant) ever
grants `oid` a resource. -/
theorem timeout_rejects_removes_never_grants (maxC maxQ : Nat)
    (es : List Event) (oid : Nat) (s : CMState)
    (hs : s = run (initState maxC maxQ) es)
    (hq : oid ∈ queueIds s) :
    (timeoutFire s oid).statsTimeout = s.statsTimeout + 1 ∧
    (timeoutFire s oid).timeoutLog = s.timeoutLog ++ [oid] ∧
    oid ∉ queueIds (timeoutFire s oid) ∧
    ∀ tr : List Event, oid ∉ (run (timeoutFire s oid) tr).grantLog := by
  have hInv : Inv s := hs ▸ run_init_inv maxC maxQ es
  obtain ⟨op, hop, hid⟩ := List.mem_map.mp hq
  have hfire : timeoutFire s oid = removeFromQueue
      { s with statsTimeout := s.statsTimeout + 1,
               timeoutLog := s.timeoutLog ++ [oid] } oid := by
    unfold timeoutFire
    rw [if_pos hq]
  have hnotq : oid ∉ queueIds (timeoutFire s oid) := by
    rw [hfire]
    exact eraseP_id_not_mem s.queue oid hInv.queueSorted
  have hlt : oid < s.nextId := hid ▸ hInv.queueLt op hop
  have hnotg : oid ∉ s.grantLog := by
    intro hmem
    have := hInv.grantQueue oid hmem op hop
    omega
  refine ⟨by rw [hfire]; rfl, by rw [hfire]; rfl, hnotq, ?_⟩
  intro tr
  refine not_granted_forever oid tr (timeoutFire s oid) hnotq ?_ ?_
  · rw [hfire]; exact hlt
  · rw [hfire]; exact hnotg

/-- Witness for C4 at a concrete trace: request 1 queues behind running
request 0; its timer fires, and even the subsequent release of 0 does not
grant it. -/
theorem timeout_rejects_removes_never_grants_witness :
    (timeoutFire (run (initState 1 10) [Event.acquire "a", Event.acquire "b"])
        1).timeoutLog =
      (run (initState 1 10) [Event.acquire "a", Event.acquire "b"]).timeoutLog
        ++ [1] ∧
    1 ∉ queueIds (timeoutFire
        (run (initState 1 10) [Event.acquire "a", Event.acquire "b"]) 1) ∧
    1 ∉ (run (timeoutFire
        (run (initState 1 10) [Event.acquire "a", Event.acquire "b"]) 1)
        [Event.release 0]).grantLog := by
  have h := timeout_rejects_removes_never_grants 1 10
    [Event.acquire "a", Event.acquire "b"] 1 _ rfl (by decide)
  exact ⟨h.2.1, h.2.2.1, h.2.2.2 [Event.release 0]⟩

/-- C5: for every invocation of `execute` whose `acquire` resolved with a
resource id `rid`, the body releases the resource exactly once (the release
call list is `[rid]`) whether the processing closure succeeded or threw;
the closure outcome is propagated unchanged to the caller (a thrown error
is caught, the release still runs, and the same error is re-thrown); and
afterwards `rid` is no longer in the running set. -/
theorem execute_releases_once_and_rethrows {ε α : Type} (maxC maxQ : Nat)
    (es : List Event) (rid : Nat) (work : Except ε α) :
    (executeAfterAcquire (run (initState maxC maxQ) es) rid work).2.2 =
      [rid] ∧
    (executeAfterAcquire (run (initState maxC maxQ) es) rid work).2.1 =
      work ∧
    rid ∉ (executeAfterAcquire (run (initState maxC maxQ) es) rid
      work).1.running := by
  have h := run_init_inv maxC maxQ es
  have hnr := executeAfterAcquire_not_running (run (initState maxC maxQ) es)
    h rid work
  cases work with
  | ok v => exact ⟨rfl, rfl, hnr⟩
  | error e => exact ⟨rfl, rfl, hnr⟩

/-- C6 counterexample: with one token outstanding (id 0) and one request
queued (id 1), `shutdown` during which no release arrives takes the timeout
path of the race: the awaited race rejects, `shutdown` re-throws the
"Shutdown timeout" error, and the queued entry is left in the queue with no
"shutting down" rejection — refuting the claim that in every case each
still-queued entry is force-rejected. -/
theorem shutdown_timeout_cex :
    (shutdown (run (initState 1 10) [Event.acquire "a", Event.acquire "b"])
      []).2 = Except.error "Shutdown timeout" ∧
    queueIds (shutdown (run (initState 1 10)
      [Event.acquire "a", Event.acquire "b"]) []).1 = [1] ∧
    (shutdown (run (initState 1 10) [Event.acquire "a", Event.acquire "b"])
      []).1.shutdownLog = [] := by
  refine ⟨rfl, by decide, by decide⟩

/-- C6 amended: `shutdown` sets the effective capacity to zero (so no
subsequent acquire can ever be granted) and waits for the outstanding
tokens; if the releases arriving during the wait drain the running set, it
force-rejects every still-queued entry with the "Server shutting down"
error and clears the queue; but if the timeout elapses with tokens still
outstanding it re-throws the "Shutdown timeout" error and the queued
entries are left queued, not rejected. -/
theorem shutdown_spec (s : CMState) (rels : List Nat) :
    (shutdown s rels).1.maxConcurrent = 0 ∧
    (∀ n : String, (acquire (shutdown s rels).1 n).1.grantLog =
      (shutdown s rels).1.grantLog) ∧
    ((rels.foldl release { s with maxConcurrent := 0 }).running.length = 0 →
      (shutdown s rels).2 = Except.ok () ∧
      (shutdown s rels).1.queue = [] ∧
      (shutdown s rels).1.shutdownLog = s.shutdownLog ++ queueIds s) ∧
    ((rels.foldl release { s with maxConcurrent := 0 }).running.length ≠ 0 →
      (shutdown s rels).2 = Except.error "Shutdown timeout" ∧
      (shutdown s rels).1.queue = s.queue ∧
      (shutdown s rels).1.shutdownLog = s.shutdownLog) := by
  obtain ⟨hq0, hsh0, hmc0⟩ := shutdown_fold_fields s rels
  have hmc : (shutdown s rels).1.maxConcurrent = 0 := by
    simp only [shutdown]
    split
    · exact hmc0
    · exact hmc0
  refine ⟨hmc, fun n => acquire_zero_no_grant _ hmc n, ?_, ?_⟩
  · intro hdr
    simp only [shutdown]
    rw [if_pos hdr]
    refine ⟨rfl, rfl, ?_⟩
    show (rels.foldl release { s with maxConcurrent := 0 }).shutdownLog ++
      queueIds (rels.foldl release { s with maxConcurrent := 0 }) =
      s.shutdownLog ++ queueIds s
    rw [hsh0]
    simp only [queueIds]
    rw [hq0]
  · intro hdr
    simp only [shutdown]
    rw [if_neg hdr]
    exact ⟨rfl, hq0, hsh0⟩

/-- Witness for C6 (amended), drained branch, at a concrete trace: token 0
is released during the wait, so shutdown resolves, clears the queue and
rejects the queued entry 1 with the shutting-down error. -/
theorem shutdown_spec_witness :
    (shutdown (run (initState 1 10) [Event.acquire "a", Event.acquire "b"])
      [0]).2 = Except.ok () ∧
    (shutdown (run (initState 1 10) [Event.acquire "a", Event.acquire "b"])
      [0]).1.queue = [] ∧
    (shutdown (run (initState 1 10) [Event.acquire "a", Event.acquire "b"])
      [0]).1.shutdownLog =
      (run (initState 1 10)
        [Event.acquire "a", Event.acquire "b"]).shutdownLog ++
      queueIds (run (initState 1 10)
        [Event.acquire "a", Event.acquire "b"]) :=
  (shutdown_spec (run (initState 1 10) [Event.acquire "a", Event.acquire "b"])
    [0]).2.2.1 (by decide)

/-- C10: `executeBatch` on an empty items list returns empty results and
errors, but its `successRate` statistic is the unguarded JavaScript
division `(0 / 0) * 100`, which is NaN — not a number between 0 and 100
(not a finite number at all). -/
theorem executeBatch_empty_successRate_nan {α β : Type}
    (f : α → Nat → Except String β) (batchSize : Nat) (progressive : Bool) :
    (executeBatch f ([] : List α) batchSize progressive).1.results = [] ∧
    (executeBatch f ([] : List α) batchSize progressive).1.errors = [] ∧
    (executeBatch f ([] : List α) batchSize progressive).2.successRate =
      JSNum.nan ∧
    ∀ q : ℚ, (executeBatch f ([] : List α) batchSize progressive).2.successRate
      ≠ JSNum.num q := by
  have hch : chunksOf batchSize ([] : List α) = [] := by
    cases batchSize <;> simp [chunksOf]
  cases progressive <;>
    simp [executeBatch, hch, collectOutcomes, jsDiv, jsMul]

end ConcurrencyManager

namespace FileManager

theorem string_data_append (a b : String) :
    (a ++ b).data = a.data ++ b.data := by
  cases a; cases b; rfl

theorem string_length_data (s : String) : s.data.length = s.length := by
  cases s; rfl

theorem string_eq_of_data (a b : String) (h : a.data = b.data) : a = b := by
  cases a; cases b
  exact congrArg String.mk h

theorem digitChar_ne_dash : ∀ m : Nat, Nat.digitChar m ≠ '-'
  | 0 | 1 | 2 | 3 | 4 | 5 | 6 | 7 => by decide
  | 8 | 9 | 10 | 11 | 12 | 13 | 14 | 15 => by decide
  | n + 16 => by
    unfold Nat.digitChar
    repeat rw [if_neg (by omega)]
    decide

theorem toDigitsCore_ne_dash (b fuel n : Nat) (ds : List Char)
    (hds : ∀ c ∈ ds, c ≠ '-') :
    ∀ c ∈ Nat.toDigitsCore b fuel n ds, c ≠ '-' := by
  induction fuel generalizing n ds with
  | zero => simpa [Nat.toDigitsCore] using hds
  | succ fuel ih =>
    simp only [Nat.toDigitsCore]
    split
    · intro c hc
      rcases List.mem_cons.mp hc with rfl | hmem
      · exact digitChar_ne_dash _
      · exact hds c hmem
    · refine ih _ _ ?_
      intro c hc
      rcases List.mem_cons.mp hc with rfl | hmem
      · exact digitChar_ne_dash _
      · exact hds c hmem

/-- The decimal rendering of a natural number contains no dash. -/
theorem natToString_ne_dash (n : Nat) : ∀ c ∈ (toString n).data, c ≠ '-' := by
  have hd : (toString n).data = Nat.toDigits 10 n := rfl
  rw [hd]
  unfold Nat.toDigits
  exact toDigitsCore_ne_dash 10 (n + 1) n [] (by simp)

/-- Splitting at the first dash is unambiguous when the left parts are
dash free. -/
theorem append_dash_cancel (a1 : List Char) : ∀ (a2 r1 r2 : List Char),
    (∀ c ∈ a1, c ≠ '-') → (∀ c ∈ a2, c ≠ '-') →
    a1 ++ '-' :: r1 = a2 ++ '-' :: r2 → a1 = a2 ∧ r1 = r2 := by
  induction a1 with
  | nil =>
    intro a2 r1 r2 h1 h2 heq
    cases a2 with
    | nil => simpa using heq
    | cons b bs =>
      exfalso
      simp only [List.nil_append, List.cons_append, List.cons.injEq] at heq
      exact h2 b (List.mem_cons_self b bs) heq.1.symm
  | cons a as ih =>
    intro a2 r1 r2 h1 h2 heq
    cases a2 with
    | nil =>
      exfalso
      simp only [List.nil_append, List.cons_append, List.cons.injEq] at heq
      exact h1 a (List.mem_cons_self a as) heq.1
    | cons b bs =>
      simp only [List.cons_append, List.cons.injEq] at heq
      obtain ⟨rfl, heq⟩ := heq
      obtain ⟨h3, h4⟩ := ih bs r1 r2
        (fun c hc => h1 c (List.mem_cons_of_mem _ hc))
        (fun c hc => h2 c (List.mem_cons_of_mem _ hc)) heq
      exact ⟨by rw [h3], h4⟩

/-- In a `pid-timestamp-session-uuid-rest` character list with dash-free
pid and timestamp, a 16-character session and a 36-character uuid, equal
lists have equal session and uuid components. -/
theorem filename_components_eq (p1 t1 s1 u1 r1 p2 t2 s2 u2 r2 : List Char)
    (hp1 : ∀ c ∈ p1, c ≠ '-') (hp2 : ∀ c ∈ p2, c ≠ '-')
    (ht1 : ∀ c ∈ t1, c ≠ '-') (ht2 : ∀ c ∈ t2, c ≠ '-')
    (hs1 : s1.length = 16) (hs2 : s2.length = 16)
    (hu1 : u1.length = 36) (hu2 : u2.length = 36)
    (heq : p1 ++ '-' :: (t1 ++ '-' :: (s1 ++ '-' :: (u1 ++ '-' :: r1))) =
           p2 ++ '-' :: (t2 ++ '-' :: (s2 ++ '-' :: (u2 ++ '-' :: r2)))) :
    s1 = s2 ∧ u1 = u2 := by
  obtain ⟨-, heq⟩ := append_dash_cancel p1 p2 _ _ hp1 hp2 heq
  obtain ⟨-, heq⟩ := append_dash_cancel t1 t2 _ _ ht1 ht2 heq
  obtain ⟨hs, heq⟩ := List.append_inj heq (by rw [hs1, hs2])
  have heq2 : u1 ++ '-' :: r1 = u2 ++ '-' :: r2 := by
    simpa using heq
  obtain ⟨hu, -⟩ := List.append_inj heq2 (by rw [hu1, hu2])
  exact ⟨hs, hu⟩

/-- The character list of a generated secure filename, in right-nested
form. -/
theorem generateSecureFilename_data (pid timestamp : Nat)
    (sessionId uuid originalName extension : String) :
    (generateSecureFilename pid timestamp sessionId uuid originalName
      extension).data =
    (toString pid).data ++ '-' :: ((toString timestamp).data ++ '-' ::
      (sessionId.data ++ '-' :: (uuid.data ++ '-' ::
        ((basenameDropExt originalName).data ++
         (if extension ≠ "" then extension
          else (if extname originalName ≠ "" then extname originalName
                else ".tmp")).data)))) := by
  have hd : ("-" : String).data = ['-'] := rfl
  unfold generateSecureFilename
  simp only [string_data_append, hd, List.append_assoc,
    List.singleton_append, List.cons_append, List.nil_append]

/-- C9: two generated secure filenames differ whenever their random
components differ: if the session ids (16 hex characters each) or the
UUIDs (36 characters each) of two calls are not both equal, the filenames
are distinct, whatever the process ids, timestamps, original names and
extensions involved. -/
theorem generateSecureFilename_distinct (pid1 ts1 : Nat)
    (sid1 uuid1 nm1 ex1 : String) (pid2 ts2 : Nat)
    (sid2 uuid2 nm2 ex2 : String)
    (hs1 : sid1.length = 16) (hs2 : sid2.length = 16)
    (hu1 : uuid1.length = 36) (hu2 : uuid2.length = 36)
    (hne : ¬(sid1 = sid2 ∧ uuid1 = uuid2)) :
    generateSecureFilename pid1 ts1 sid1 uuid1 nm1 ex1 ≠
    generateSecureFilename pid2 ts2 sid2 uuid2 nm2 ex2 := by
  intro heq
  have hdata := congrArg String.data heq
  rw [generateSecureFilename_data, generateSecureFilename_data] at hdata
  have hcomps := filename_components_eq _ _ _ _ _ _ _ _ _ _
    (natToString_ne_dash pid1) (natToString_ne_dash pid2)
    (natToString_ne_dash ts1) (natToString_ne_dash ts2)
    ((string_length_data sid1).trans hs1)
    ((string_length_data sid2).trans hs2)
    ((string_length_data uuid1).trans hu1)
    ((string_length_data uuid2).trans hu2) hdata
  exact hne ⟨string_eq_of_data _ _ hcomps.1, string_eq_of_data _ _ hcomps.2⟩

/-- Witness for C9: two concrete calls in the same millisecond of the same
process, differing only in the random session id, yield distinct
filenames. -/
theorem generateSecureFilename_distinct_witness :
    generateSecureFilename 11 22 "0123456789abcdef"
      "123e4567-e89b-12d3-a456-426614174000" "doc.pdf" "" ≠
    generateSecureFilename 11 22 "fedcba9876543210"
      "123e4567-e89b-12d3-a456-426614174000" "doc.pdf" "" :=
  generateSecureFilename_distinct 11 22 "0123456789abcdef"
    "123e4567-e89b-12d3-a456-426614174000" "doc.pdf" "" 11 22
    "fedcba9876543210" "123e4567-e89b-12d3-a456-426614174000" "doc.pdf" ""
    (by decide) (by decide) (by decide) (by decide) (by decide)

/-- C8: `cleanupFile` on an identifier with no tracked record returns false
and changes nothing (the body never throws: the model is a total function);
on a record whose owner process id differs from the current one it refuses:
it returns false, deletes nothing from disk, and leaves the record in the
tracking map (the state is unchanged). -/
theorem cleanupFile_foreign_or_unknown (pid : Nat) (fm : FMState)
    (filename : String) :
    (mapGet fm.activeFiles filename = none →
      cleanupFile pid fm filename = (fm, false)) ∧
    (∀ info, mapGet fm.activeFiles filename = some info → info.pid ≠ pid →
      cleanupFile pid fm filename = (fm, false)) := by
  constructor
  · intro h
    unfold cleanupFile
    rw [h]
  · intro info h hne
    unfold cleanupFile
    rw [h]
    simp only [if_pos hne]

/-- Witness for C8: a record owned by process 999 is refused by process 1,
and a missing identifier also returns false. -/
theorem cleanupFile_foreign_or_unknown_witness :
    cleanupFile 1 foreignFM "k" = (foreignFM, false) ∧
    cleanupFile 1 blankFM "missing" = (blankFM, false) :=
  ⟨(cleanupFile_foreign_or_unknown 1 foreignFM "k").2 foreignRecord
      (by decide) (by decide),
   (cleanupFile_foreign_or_unknown 1 blankFM "missing").1 (by decide)⟩

theorem diskWrite_mem (disk : List (String × List Nat)) (p : String)
    (bytes : List Nat) : (p, bytes) ∈ diskWrite disk p bytes := by
  unfold diskWrite
  split
  · rename_i h
    rw [List.any_eq_true] at h
    obtain ⟨e, he, hkey⟩ := h
    refine List.mem_map.mpr ⟨e, he, ?_⟩
    rw [if_pos hkey]
  · exact List.mem_append_right _ (List.mem_singleton.mpr rfl)

end FileManager

namespace StreamingMiddleware

/-- C7 counterexample: a PDF part of 11 bytes — above the 10-byte streaming
threshold of `sampleConfig` — is accepted by the streaming upload handler
and staged at `/tmp/uploads/123-abc-doc.pdf`, yet that path is not issued
by the File Lifecycle Manager: after the handler runs, the manager tracking
map contains no record resolving to it (it is still empty), because the
handler composes its own path and never calls `createTempFile`. -/
theorem streamingUpload_not_managerIssued_cex :
    10 < (List.replicate 11 (0 : Nat)).length ∧
    (streamingUploadOnFile sampleConfig FileManager.blankFM [] 123 "abc"
      "file" "doc.pdf" "7bit" "application/pdf"
      (List.replicate 11 0)).2.map (fun f => f.path) =
      ["/tmp/uploads/123-abc-doc.pdf"] ∧
    ¬ managerIssued (streamingUploadOnFile sampleConfig FileManager.blankFM
      [] 123 "abc" "file" "doc.pdf" "7bit" "application/pdf"
      (List.replicate 11 0)).1 "/tmp/uploads/123-abc-doc.pdf" := by
  refine ⟨by decide, by decide, by decide⟩

/-- C7 amended: every file accepted by the streaming upload handler —
including every file exceeding the streaming threshold — is staged to disk
(not buffered) at a path the handler composes itself inside the temp
directory from the timestamp, a random suffix and the original filename;
the request file list then carries that staged path; but the path is not
issued by the File Lifecycle Manager: the manager tracking map is left
exactly as it was. -/
theorem streamingUpload_stages_to_own_path (cfg : UploadConfig)
    (fm : FileManager.FMState) (files : List UploadedFile) (nowMs : Nat)
    (rnd fieldname fname enc mime : String) (content : List Nat)
    (_hsize : cfg.streamingThreshold < content.length)
    (hmime : cfg.allowedMimeTypes.contains mime = true) :
    (streamingUploadOnFile cfg fm files nowMs rnd fieldname fname enc mime
      content).1.activeFiles = fm.activeFiles ∧
    (cfg.tempDir ++ "/" ++ (toString nowMs ++ "-" ++ rnd ++ "-" ++ fname),
      content) ∈ (streamingUploadOnFile cfg fm files nowMs rnd fieldname
      fname enc mime content).1.disk ∧
    (streamingUploadOnFile cfg fm files nowMs rnd fieldname fname enc mime
      content).2 = files ++
      [{ fieldname := fieldname, originalname := fname, encoding := enc,
         mimetype := mime,
         path := cfg.tempDir ++ "/" ++
           (toString nowMs ++ "-" ++ rnd ++ "-" ++ fname),
         filename := lastPathComponent (cfg.tempDir ++ "/" ++
           (toString nowMs ++ "-" ++ rnd ++ "-" ++ fname)) }] := by
  unfold streamingUploadOnFile
  rw [if_pos hmime]
  exact ⟨rfl, FileManager.diskWrite_mem fm.disk _ content, rfl⟩

/-- Witness for C7 (amended) at the concrete counterexample input: the
tracking map is untouched and the staged bytes are on disk at the composed
path. -/
theorem streamingUpload_stages_to_own_path_witness :
    (streamingUploadOnFile sampleConfig FileManager.blankFM [] 123 "abc"
      "file" "doc.pdf" "7bit" "application/pdf"
      (List.replicate 11 0)).1.activeFiles =
      FileManager.blankFM.activeFiles ∧
    (sampleConfig.tempDir ++ "/" ++
      (toString (123 : Nat) ++ "-" ++ "abc" ++ "-" ++ "doc.pdf"),
      List.replicate 11 (0 : Nat)) ∈
      (streamingUploadOnFile sampleConfig FileManager.blankFM [] 123 "abc"
        "file" "doc.pdf" "7bit" "application/pdf"
        (List.replicate 11 0)).1.disk :=
  ⟨(streamingUpload_stages_to_own_path sampleConfig FileManager.blankFM []
      123 "abc" "file" "doc.pdf" "7bit" "application/pdf"
      (List.replicate 11 0) (by decide) (by decide)).1,
   (streamingUpload_stages_to_own_path sampleConfig FileManager.blankFM []
      123 "abc" "file" "doc.pdf" "7bit" "application/pdf"
      (List.replicate 11 0) (by decide) (by decide)).2.1⟩

end StreamingMiddleware
